import Mathlib

/-!
Verification development for the Batch Freezing Log subsystem of
`src/haccp.py` (a Streamlit HACCP data-entry app).

The embedding covers:
* `pyStrip` — Python `str.strip()` on both ends (whitespace removal);
* `Candidate` / `Record` — the form state and the persisted row
  (`record` dict built at lines 540–551 of the source);
* `validate` — the `errors` list built at lines 523–531;
* `advisories` — the non-blocking `st.info` / `st.warning` messages
  (lines 526–529), which are never appended to `errors`;
* `submit` — the `if submitted: if errors: ... else: append` block
  (lines 535–556), modelled at the parsed-log level;
* `load_employee_names` — lines 441–462, including the `is_active`
  filter, `dropna`, `strip`, `sort_values`, `unique` and the final
  non-empty filter, with the hardcoded fallback list;
* `second_choices` — line 507;
* a character-level CSV layer (escaping exactly as the csv module with
  minimal quoting: a field is quoted iff it contains a comma, quote,
  or line break, with quotes doubled) with a full re-reading routine,
  modelling `DataFrame.to_csv(index=False)` / `pd.read_csv`;
* `csvWriteTruncated` — `to_csv` opens the log in write mode, so the
  file is truncated first and a failure partway leaves a prefix of the
  new content;
* a tiny interleaving model of two unguarded read-concat-write
  `append` calls sharing the store (lines 552–556).

Dates are modelled as `Nat` (only their linear order matters to the
code: `mix_exp_date < batch_date`); timestamps as `Nat` seconds, with
clock monotonicity across sequential submissions taken as a hypothesis.
The `"Yes"`/`"No"` radio values are modelled as `Bool` (`true` =
`"Yes"`).
-/

/-! ### Python `str.strip()` -/

/-- The whitespace characters removed by Python `str.strip()`
(space, tab, newline, carriage return, vertical tab, form feed). -/
def isPySpace (c : Char) : Bool :=
  c == ' ' || c == '\t' || c == '\n' || c == '\r' || c == '\x0b' || c == '\x0c'

/-- Strip `isPySpace` characters from both ends of a character list. -/
def stripList (l : List Char) : List Char :=
  ((l.dropWhile isPySpace).reverse.dropWhile isPySpace).reverse

/-- Python `s.strip()`. -/
def pyStrip (s : String) : String := ⟨stripList s.data⟩

/-! ### Data model -/

/-- The form state assembled inside `with st.form("batch_freezing_form")`
(source lines 496–520).  `current_user` is the resolved freezer
operator. -/
structure Candidate where
  batch_date : Nat
  mix_exp_date : Nat
  batch_id : String
  current_user : String
  mixer_name : String
  second_tester_name : String
  mixer_taste_tested : Bool
  second_tester_taste_tested : Bool
  notes : String
deriving DecidableEq

/-- One persisted row of `data/batch_freezing_log.csv`, fields in the
schema order of `ensure_dirs_and_log` (source lines 424–437). -/
structure Record where
  timestamp : Nat
  batch_date : Nat
  batch_id : String
  freezer_operator : String
  mixer_name : String
  second_tester_name : String
  mix_expiration_date : Nat
  mixer_taste_tested : Bool
  second_tester_taste_tested : Bool
  notes : String
deriving DecidableEq

/-- `errors.append("Please enter a Batch ID / Code.")` trigger message
(source line 525). -/
def batchIdError : String := "Please enter a Batch ID / Code."

/-- `errors.append("Mix expiration date cannot be earlier than the batch
date.")` trigger message (source line 531). -/
def dateOrderError : String := "Mix expiration date cannot be earlier than the batch date."

/-- The `errors` list of source lines 523–531: `if not batch_id` appends
the batch-id message (emptiness of the raw string, Python truthiness of
`str`), and `if mix_exp_date < batch_date` appends the date-order
message.  Both checks always run; neither short-circuits the other. -/
def validate (c : Candidate) : List String :=
  (if c.batch_id = "" then [batchIdError] else []) ++
  (if c.mix_exp_date < c.batch_date then [dateOrderError] else [])

/-- The non-blocking `st.info` / `st.warning` messages of source lines
526–529.  These are surfaced to the caller but never appended to
`errors`. -/
def advisories (c : Candidate) : List String :=
  (if c.mixer_name = c.current_user then
    ["Mixer and Freezer Operator can be the same person, but consider adding a distinct second tester."]
  else []) ++
  (if c.second_tester_name = c.current_user ∧ c.mixer_taste_tested = false then
    ["If the operator is also the second tester, ensure the mixer confirmed their own taste test."]
  else [])

/-- The `record` dict built at source lines 540–551: the timestamp is
taken at append time, `batch_id` and `notes` are stripped, every other
field is copied verbatim. -/
def mkRecord (c : Candidate) (now : Nat) : Record :=
  ⟨now, c.batch_date, pyStrip c.batch_id, c.current_user, c.mixer_name,
   c.second_tester_name, c.mix_exp_date, c.mixer_taste_tested,
   c.second_tester_taste_tested, pyStrip c.notes⟩

/-- The `if submitted: if errors: ... else: append` block (source lines
535–556), at the parsed-log level: on a validation failure the log is
untouched; otherwise the new record is concatenated at the end. -/
def submit (log : List Record) (c : Candidate) (now : Nat) : List Record :=
  if validate c = [] then log ++ [mkRecord c now] else log

/-- `df_all = pd.read_csv(LOG_PATH)` (source line 565), at the parsed-log
level: reading returns every persisted record in insertion order. -/
def readAll (log : List Record) : List Record := log

/-- A sequence of submissions, each with the clock value observed by
`datetime.now()` at its append. -/
def appendAll (log : List Record) (subs : List (Candidate × Nat)) : List Record :=
  subs.foldl (fun l p => submit l p.1 p.2) log

/-! ### Employee directory (`load_employee_names`, source lines 441–462) -/

/-- One row of `employees.csv`: `full_name` and the optional `is_active`
cell, `none` standing for a missing value (pandas `NaN`). -/
structure RosterRow where
  full_name : Option String
  is_active : Option String

/-- The three ways the roster source can present itself to
`load_employee_names`: the file is absent or unreadable, it parses but
has no `full_name` column, or it yields rows. -/
inductive RosterSource where
  | missing
  | noFullNameColumn
  | table (rows : List RosterRow)

/-- The `is_active` keep-condition of source line 447:
`astype(str).str.lower().isin(["1", "true", "yes"]) | (~notna())` —
a row is kept when the flag is absent or case-insensitively truthy. -/
def truthyActive : Option String → Bool
  | none => true
  | some v => v.toLower == "1" || v.toLower == "true" || v.toLower == "yes"

/-- The hardcoded fallback of source lines 456–462. -/
def fallbackNames : List String :=
  ["Alice Martinez", "Ben Kim", "Carla Rossi", "Diego Alvarez", "Eva Chen"]

/-- Adjacent deduplication on an already sorted list: the effect of
pandas `.unique()` after `.sort_values()` (first occurrences kept, in
order). -/
def uniqSorted : List String → List String
  | [] => []
  | [x] => [x]
  | x :: y :: rest => if x = y then uniqSorted (y :: rest) else x :: uniqSorted (y :: rest)

/-- `load_employee_names` (source lines 441–462): on any read failure or
missing `full_name` column, the fallback list; otherwise the `is_active`
filter, `dropna`, `strip`, `sort_values`, `unique`, and the final
`[n for n in names if n]` comprehension. -/
def load_employee_names : RosterSource → List String
  | RosterSource.missing => fallbackNames
  | RosterSource.noFullNameColumn => fallbackNames
  | RosterSource.table rows =>
      let active := rows.filter (fun r => truthyActive r.is_active)
      let stripped := (active.filterMap (fun r => r.full_name)).map pyStrip
      let srt := List.insertionSort (fun a b => a ≤ b) stripped
      (uniqSorted srt).filter (fun n => n != "")

/-- `second_choices` (source line 507): every employee name different
from the current user, except that a singleton directory is kept
whole. -/
def second_choices (employee_names : List String) (current_user : String) : List String :=
  employee_names.filter (fun n => n != current_user || employee_names.length == 1)

/-! ### CSV wire format

`DataFrame.to_csv(index=False)` writes one header line and one line per
row, separating fields with commas and quoting with the csv module's
minimal quoting: a field is wrapped in double quotes exactly when it
contains a comma, a double quote, or a line break, and embedded double
quotes are doubled.  `pd.read_csv` reads the same format back.  The
layer below works on `List Char` so that escaping is modelled at the
character level. -/

/-- A single CSV field, as characters. -/
abbrev CsvField := List Char

/-- A CSV row: the ten fields of the batch freezing schema. -/
abbrev CsvRow := List CsvField

/-- Characters that force a field to be quoted. -/
def isSpecialChar (c : Char) : Bool :=
  c == ',' || c == '"' || c == '\n' || c == '\r'

/-- Does this field need quoting? -/
def needsQuote (f : CsvField) : Bool := f.any isSpecialChar

/-- Double every embedded quote character. -/
def doubleQuotes : CsvField → CsvField
  | [] => []
  | c :: rest => if c = '"' then '"' :: '"' :: doubleQuotes rest else c :: doubleQuotes rest

/-- Serialize one field, quoting only when needed. -/
def escapeField (f : CsvField) : List Char :=
  if needsQuote f then '"' :: (doubleQuotes f ++ ['"']) else f

/-- Serialize one row: fields joined by commas. -/
def serializeRow : CsvRow → List Char
  | [] => []
  | [f] => escapeField f
  | f :: g :: fs => escapeField f ++ ',' :: serializeRow (g :: fs)

/-- Serialize a list of rows, each terminated by a newline. -/
def serializeBody : List CsvRow → List Char
  | [] => []
  | r :: rs => serializeRow r ++ '\n' :: serializeBody rs

/-- The header row written by `ensure_dirs_and_log` (source lines
424–438) and by every `to_csv` call on the log dataframe. -/
def headerRow : CsvRow :=
  ["timestamp".data, "batch_date".data, "batch_id".data, "freezer_operator".data,
   "mixer_name".data, "second_tester_name".data, "mix_expiration_date".data,
   "mixer_taste_tested".data, "second_tester_taste_tested".data, "notes".data]

/-- The full CSV file for a list of data rows: header line then body. -/
def serializeCsvFile (rows : List CsvRow) : List Char :=
  serializeRow headerRow ++ '\n' :: serializeBody rows

/-- Read an unquoted field: consume characters up to the next comma or
newline. -/
def parseUnquoted : List Char → CsvField × List Char
  | [] => ([], [])
  | c :: rest =>
    if c = ',' ∨ c = '\n' then ([], c :: rest)
    else
      let p := parseUnquoted rest
      (c :: p.1, p.2)

/-- Read the remainder of a quoted field (the opening quote already
consumed): a doubled quote stands for one quote character, a single
quote closes the field. -/
def parseQuoted : List Char → CsvField × List Char
  | [] => ([], [])
  | c :: rest =>
    if c = '"' then
      match rest with
      | [] => ([], [])
      | c2 :: rest2 =>
        if c2 = '"' then
          let p := parseQuoted rest2
          ('"' :: p.1, p.2)
        else ([], rest)
    else
      let p := parseQuoted rest
      (c :: p.1, p.2)

/-- Read one field, choosing quoted or unquoted form by the first
character. -/
def parseField (input : List Char) : CsvField × List Char :=
  match input with
  | [] => ([], [])
  | c :: rest => if c = '"' then parseQuoted rest else parseUnquoted (c :: rest)

/-- Read the fields of one row (fuel bounds the field count). -/
def parseFieldSeq : Nat → List Char → CsvRow × List Char
  | 0, input => ([], input)
  | Nat.succ fuel, input =>
    let p := parseField input
    match p.2 with
    | [] => ([p.1], [])
    | d :: rest =>
      if d = ',' then
        let q := parseFieldSeq fuel rest
        (p.1 :: q.1, q.2)
      else if d = '\n' then ([p.1], rest)
      else ([p.1], d :: rest)

/-- Read all rows of a file (fuel bounds the row count). -/
def parseRowSeq : Nat → List Char → List CsvRow
  | 0, _ => []
  | Nat.succ fuel, input =>
    if input = [] then []
    else
      let p := parseFieldSeq (input.length + 1) input
      p.1 :: parseRowSeq fuel p.2

/-- Parse a whole CSV file into rows (header row included). -/
def parseCsvRows (input : List Char) : List CsvRow :=
  parseRowSeq (input.length + 1) input

/-- `pd.read_csv` on the log file: parse and drop the header row. -/
def readAllFile (content : List Char) : List CsvRow :=
  match parseCsvRows content with
  | [] => []
  | _ :: body => body

/-- The export download (source lines 572–577):
`df_all.to_csv(index=False)` where `df_all = pd.read_csv(LOG_PATH)`. -/
def exportFile (content : List Char) : List Char :=
  serializeCsvFile (readAllFile content)

/-- `df.to_csv(LOG_PATH, index=False)` opens the log in write mode, so
the old content is discarded first; a write that fails after `k`
characters leaves exactly a prefix of the new content on disk. -/
def csvWriteTruncated (rows : List CsvRow) (k : Nat) : List Char :=
  (serializeCsvFile rows).take k

/-! ### Two unguarded concurrent appends (source lines 552–556)

Each `append` performs `pd.read_csv(LOG_PATH)` (a read of the whole
store into a private buffer) and later `df.to_csv(LOG_PATH)` (a write of
the buffer plus the new record).  Nothing in the source serializes the
two steps, so the four steps of two appends may interleave freely. -/

/-- Shared store plus the private dataframe buffers of two in-flight
`append` calls. -/
structure ConcState where
  file : List Record
  bufA : Option (List Record)
  bufB : Option (List Record)
deriving DecidableEq

/-- The atomic steps of the two appends: each call first reads the store
into its buffer, then writes back its buffer plus its own record. -/
inductive COp where
  | readA
  | writeA
  | readB
  | writeB
deriving DecidableEq

/-- One interleaving step: a read copies the store into the private
buffer, a write replaces the store with the buffer plus the new
record (a write before the matching read is a no-op). -/
def cstep (a b : Record) (s : ConcState) : COp → ConcState
  | COp.readA => ConcState.mk s.file (some s.file) s.bufB
  | COp.writeA =>
    match s.bufA with
    | some rs => ConcState.mk (rs ++ [a]) s.bufA s.bufB
    | none => s
  | COp.readB => ConcState.mk s.file s.bufA (some s.file)
  | COp.writeB =>
    match s.bufB with
    | some rs => ConcState.mk (rs ++ [b]) s.bufA s.bufB
    | none => s

/-- Run a schedule of interleaved steps from an initial store. -/
def runSched (a b : Record) (init : List Record) (ops : List COp) : ConcState :=
  ops.foldl (cstep a b) (ConcState.mk init none none)

/-- Last element of a list, `none` on the empty list. -/
def lastElem {α : Type} : List α → Option α
  | [] => none
  | [a] => some a
  | _ :: b :: t => lastElem (b :: t)

/-! ### Validation and submission claims -/

theorem mem_validate_batch (c : Candidate) : batchIdError ∈ validate c ↔ c.batch_id = "" := by
  by_cases h1 : c.batch_id = "" <;> by_cases h2 : c.mix_exp_date < c.batch_date <;>
    simp [validate, h1, h2, batchIdError, dateOrderError]

theorem mem_validate_date (c : Candidate) :
    dateOrderError ∈ validate c ↔ c.mix_exp_date < c.batch_date := by
  by_cases h1 : c.batch_id = "" <;> by_cases h2 : c.mix_exp_date < c.batch_date <;>
    simp [validate, h1, h2, batchIdError, dateOrderError]

/-- A candidate whose `batch_id` is a single space: nonempty as a raw
string, empty after stripping.  Its dates are in order, so the date rule
is satisfied. -/
def cWhitespace : Candidate :=
  ⟨1, 3, " ", "Alice Martinez", "Ben Kim", "Carla Rossi", true, true, ""⟩

/-- Claim C2 counterexample: the source checks `if not batch_id` — raw
Python-truthiness of the string — not emptiness after trimming.  The
whitespace-only batch id `" "` passes validation, and the persisted
record (which stores `batch_id.strip()`) carries a batch id that is
empty after trimming.  Hence the claim, which demands rejection of every
candidate whose batch id trims to empty, is false. -/
theorem c2_counterexample :
    pyStrip cWhitespace.batch_id = "" ∧
    validate cWhitespace = [] ∧
    (mkRecord cWhitespace 0).batch_id = "" ∧
    ¬ (∀ c : Candidate, pyStrip c.batch_id = "" → batchIdError ∈ validate c) := by
  refine ⟨by decide, by decide, by decide, fun h => ?_⟩
  exact absurd (h cWhitespace (by decide)) (by decide)

/-- Claim C2 (amended): validation rejects with the missing-batch-id
reason exactly when the raw `batch_id` string is empty; a whitespace-only
batch id passes the check (and, as the counterexample records, is then
persisted with a batch id that is empty after trimming). -/
theorem c2_batch_id_checks_raw_string (c : Candidate) :
    batchIdError ∈ validate c ↔ c.batch_id = "" :=
  mem_validate_batch c

/-- Witness for C2 (amended) at the empty batch id. -/
theorem c2_batch_id_checks_raw_string_witness :
    batchIdError ∈ validate ⟨1, 3, "", "Alice Martinez", "Ben Kim", "Carla Rossi", true, true, ""⟩ :=
  (c2_batch_id_checks_raw_string _).mpr rfl

/-- Claim C3: the date-order reason appears in the validation result
exactly when `mix_exp_date < batch_date`, and a candidate violating both
the batch-id rule and the date rule receives both reasons at once (the
checks are independent, with no short-circuiting). -/
theorem c3_date_rule_independent (c : Candidate) :
    (dateOrderError ∈ validate c ↔ c.mix_exp_date < c.batch_date) ∧
    (c.batch_id = "" → c.mix_exp_date < c.batch_date →
      validate c = [batchIdError, dateOrderError]) := by
  refine ⟨mem_validate_date c, fun h1 h2 => ?_⟩
  simp [validate, h1, h2]

/-- A candidate violating both blocking rules. -/
def cBothBad : Candidate :=
  ⟨5, 2, "", "Alice Martinez", "Ben Kim", "Carla Rossi", true, true, ""⟩

/-- Witness for C3: both reasons are listed at once for `cBothBad`. -/
theorem c3_date_rule_independent_witness :
    validate cBothBad = [batchIdError, dateOrderError] :=
  (c3_date_rule_independent cBothBad).2 rfl (by decide)

/-- Claim C4: the advisory conditions never cause rejection — any
candidate satisfying the two blocking rules validates to an empty error
list and is appended on submit, whatever the advisory conditions say. -/
theorem c4_advisories_never_block (log : List Record) (c : Candidate) (t : Nat)
    (h1 : c.batch_id ≠ "") (h2 : ¬ c.mix_exp_date < c.batch_date) :
    validate c = [] ∧ submit log c t = log ++ [mkRecord c t] := by
  have hv : validate c = [] := by simp [validate, h1, h2]
  exact ⟨hv, by simp [submit, hv]⟩

/-- A candidate triggering both advisories: the mixer and the second
tester are both the operator, and the mixer did not taste-test. -/
def cAdvisory : Candidate :=
  ⟨1, 5, "B-1", "Alice Martinez", "Alice Martinez", "Alice Martinez", false, true, ""⟩

/-- Witness for C4: `cAdvisory` fires both advisory messages yet is
admitted and persisted. -/
theorem c4_advisories_never_block_witness :
    advisories cAdvisory ≠ [] ∧ validate cAdvisory = [] ∧
    submit [] cAdvisory 9 = [mkRecord cAdvisory 9] :=
  ⟨by decide, (c4_advisories_never_block [] cAdvisory 9 (by decide) (by decide)).1,
   (c4_advisories_never_block [] cAdvisory 9 (by decide) (by decide)).2⟩

/-- Claim C5: a submission that fails validation leaves the log exactly
as it was — same records, same order. -/
theorem c5_rejected_never_written (log : List Record) (c : Candidate) (t : Nat)
    (h : validate c ≠ []) : submit log c t = log := by
  simp [submit, h]

/-- A one-record log used by witnesses. -/
def logOne : List Record := [mkRecord cAdvisory 1]

/-- Witness for C5 at a doubly-invalid candidate over a nonempty log. -/
theorem c5_rejected_never_written_witness :
    validate cBothBad ≠ [] ∧ submit logOne cBothBad 3 = logOne :=
  ⟨by decide, c5_rejected_never_written logOne cBothBad 3 (by decide)⟩

/-- Claim C10 (implicit): whenever the directory holds at least two
names, `second_choices` excludes the operator, so the persisted record
built from any selection in it has `second_tester_name` different from
`freezer_operator`; the selection can equal the operator only when the
directory has exactly one name. -/
theorem c10_second_tester_excludes_operator (names : List String) (u s : String)
    (hs : s ∈ second_choices names u) :
    (2 ≤ names.length → s ≠ u) ∧ (s = u → names.length = 1) ∧
    (∀ c : Candidate, ∀ t : Nat, c.second_tester_name = s → c.current_user = u →
      2 ≤ names.length →
      (mkRecord c t).second_tester_name ≠ (mkRecord c t).freezer_operator) := by
  have hmem := List.mem_filter.mp hs
  have hdisj : s ≠ u ∨ names.length = 1 := by
    have hc := hmem.2
    simp only [Bool.or_eq_true, bne_iff_ne, beq_iff_eq] at hc
    exact hc
  have part1 : 2 ≤ names.length → s ≠ u := by
    intro hlen
    rcases hdisj with h | h
    · exact h
    · omega
  refine ⟨part1, fun hsu => ?_, fun c t h1 h2 hlen => ?_⟩
  · rcases hdisj with h | h
    · exact absurd hsu h
    · exact h
  · show c.second_tester_name ≠ c.current_user
    rw [h1, h2]
    exact part1 hlen

/-- A two-name directory for the C10 witness. -/
def namesTwo : List String := ["Alice Martinez", "Ben Kim"]

/-- Witness for C10: with two names, the remaining choice differs from
the operator. -/
theorem c10_second_tester_excludes_operator_witness :
    ("Ben Kim" : String) ≠ "Alice Martinez" :=
  (c10_second_tester_excludes_operator namesTwo "Alice Martinez" "Ben Kim" (by decide)).1
    (by decide)

/-! ### Sequential appends (C1) -/

theorem appendAll_eq_map (subs : List (Candidate × Nat)) :
    ∀ log : List Record, (∀ p ∈ subs, validate p.1 = []) →
    appendAll log subs = log ++ subs.map (fun p => mkRecord p.1 p.2) := by
  induction subs with
  | nil => intro log _; simp [appendAll]
  | cons p rest ih =>
    intro log hval
    have hp : validate p.1 = [] := hval p (List.mem_cons_self p rest)
    have hrest : ∀ q ∈ rest, validate q.1 = [] := fun q hq => hval q (List.mem_cons_of_mem p hq)
    have hstep : appendAll log (p :: rest) = appendAll (submit log p.1 p.2) rest := rfl
    rw [hstep, ih _ hrest]
    simp [submit, hp]

theorem lastElem_map {α β : Type} (f : α → β) :
    ∀ l : List α, lastElem (l.map f) = (lastElem l).map f := by
  intro l
  induction l with
  | nil => rfl
  | cons a t ih =>
    cases t with
    | nil => rfl
    | cons b t2 =>
      have h1 : lastElem ((a :: b :: t2).map f) = lastElem ((b :: t2).map f) := rfl
      have h2 : lastElem (a :: b :: t2) = lastElem (b :: t2) := rfl
      rw [h1, h2, ih]

theorem chain_le_lastElem :
    ∀ l : List Nat, List.Chain' (fun a b => a ≤ b) l →
    ∀ x ∈ l, ∀ y, lastElem l = some y → x ≤ y := by
  intro l
  induction l with
  | nil => intro _ x hx; cases hx
  | cons a t ih =>
    intro hch x hx y hy
    cases t with
    | nil =>
      have hx2 : x = a := by simpa using hx
      have hy2 : a = y := by simpa [lastElem] using hy
      omega
    | cons b t2 =>
      have hcc := List.chain'_cons.mp hch
      have hy2 : lastElem (b :: t2) = some y := by simpa [lastElem] using hy
      rcases List.mem_cons.mp hx with hxa | hxt
      · have hb : b ≤ y := ih hcc.2 b (List.mem_cons_self b t2) y hy2
        omega
      · exact ih hcc.2 x hxt y hy2

/-- Claim C1: starting from the empty store, sequentially submitting
N ≥ 1 validated candidates (the clock nondecreasing between appends)
makes `readAll` return exactly the N built records in submission order;
the last element is the record built from the last submission, with its
timestamp set at append time, and that timestamp is at least every other
record's timestamp. -/
theorem c1_sequential_appends (subs : List (Candidate × Nat))
    (_hne : subs ≠ [])
    (hval : ∀ p ∈ subs, validate p.1 = [])
    (hmono : List.Chain' (fun a b => a ≤ b) (subs.map Prod.snd)) :
    readAll (appendAll [] subs) = subs.map (fun p => mkRecord p.1 p.2) ∧
    (readAll (appendAll [] subs)).length = subs.length ∧
    lastElem (readAll (appendAll [] subs)) = (lastElem subs).map (fun p => mkRecord p.1 p.2) ∧
    (∀ r ∈ readAll (appendAll [] subs), ∀ y,
      lastElem (readAll (appendAll [] subs)) = some y → r.timestamp ≤ y.timestamp) := by
  have hmain : readAll (appendAll [] subs) = subs.map (fun p => mkRecord p.1 p.2) := by
    have h := appendAll_eq_map subs [] hval
    simpa [readAll] using h
  refine ⟨hmain, by rw [hmain]; simp, by rw [hmain]; exact lastElem_map _ subs, ?_⟩
  intro r hr y hy
  rw [hmain] at hr hy
  rcases List.mem_map.mp hr with ⟨p, hp, hpr⟩
  rw [lastElem_map] at hy
  rcases Option.map_eq_some'.mp hy with ⟨q, hq, hqy⟩
  have hr_ts : r.timestamp = p.2 := by rw [← hpr]; rfl
  have hy_ts : y.timestamp = q.2 := by rw [← hqy]; rfl
  rw [hr_ts, hy_ts]
  have hmem : p.2 ∈ subs.map Prod.snd := List.mem_map.mpr ⟨p, hp, rfl⟩
  have hlast : lastElem (subs.map Prod.snd) = some q.2 := by
    rw [lastElem_map, hq]
    rfl
  exact chain_le_lastElem _ hmono _ hmem _ hlast

/-- Two valid submissions with nondecreasing clock readings. -/
def subsTwo : List (Candidate × Nat) :=
  [(⟨1, 3, "B-1", "Alice Martinez", "Ben Kim", "Carla Rossi", true, true, "first"⟩, 5),
   (⟨2, 4, "B-2", "Alice Martinez", "Ben Kim", "Carla Rossi", true, false, ""⟩, 7)]

/-- Witness for C1 on a concrete two-submission run. -/
theorem c1_sequential_appends_witness :
    readAll (appendAll [] subsTwo) = subsTwo.map (fun p => mkRecord p.1 p.2) ∧
    (readAll (appendAll [] subsTwo)).length = subsTwo.length ∧
    lastElem (readAll (appendAll [] subsTwo)) = (lastElem subsTwo).map (fun p => mkRecord p.1 p.2) ∧
    (∀ r ∈ readAll (appendAll [] subsTwo), ∀ y,
      lastElem (readAll (appendAll [] subsTwo)) = some y → r.timestamp ≤ y.timestamp) :=
  c1_sequential_appends subsTwo (by decide) (by decide)
    (by simp [subsTwo, List.chain'_cons])

/-! ### Employee directory claims (C9) -/

theorem dropWhile_self_idem {α : Type} (p : α → Bool) :
    ∀ l : List α, (l.dropWhile p).dropWhile p = l.dropWhile p := by
  intro l
  induction l with
  | nil => rfl
  | cons a t ih =>
    cases hpa : p a with
    | false => simp [List.dropWhile_cons, hpa]
    | true => simp [List.dropWhile_cons, hpa, ih]

theorem head_of_dropWhile_false {α : Type} (p : α → Bool) :
    ∀ (l : List α) (a : α), (l.dropWhile p).head? = some a → p a = false := by
  intro l
  induction l with
  | nil => intro a h; cases h
  | cons b t ih =>
    intro a h
    cases hpb : p b with
    | true =>
      rw [List.dropWhile_cons, if_pos hpb] at h
      exact ih a h
    | false =>
      rw [List.dropWhile_cons, if_neg (by simp [hpb])] at h
      have hba : b = a := by simpa using h
      rw [← hba]
      exact hpb

theorem dropWhile_eq_self_of_head {α : Type} (p : α → Bool) :
    ∀ l : List α, (∀ a, l.head? = some a → p a = false) → l.dropWhile p = l := by
  intro l h
  cases l with
  | nil => rfl
  | cons b t =>
    have hb : p b = false := h b rfl
    rw [List.dropWhile_cons, if_neg (by simp [hb])]

theorem prefix_dropWhile_fixed {α : Type} (p : α → Bool) (l m : List α)
    (hm : m.dropWhile p = m) (hpre : l <+: m) : l.dropWhile p = l := by
  apply dropWhile_eq_self_of_head
  intro a ha
  cases l with
  | nil => cases ha
  | cons b t =>
    have hab : b = a := by simpa using ha
    rcases hpre with ⟨u, hu⟩
    have hhm : (m.dropWhile p).head? = some b := by
      rw [hm, ← hu]
      rfl
    have hfb := head_of_dropWhile_false p m b hhm
    rw [← hab]
    exact hfb

theorem stripList_idem (l : List Char) : stripList (stripList l) = stripList l := by
  have hAfix : (l.dropWhile isPySpace).dropWhile isPySpace = l.dropWhile isPySpace :=
    dropWhile_self_idem isPySpace l
  have hsuffix : ((l.dropWhile isPySpace).reverse.dropWhile isPySpace)
      <:+ (l.dropWhile isPySpace).reverse := List.dropWhile_suffix isPySpace
  have hprefix : ((l.dropWhile isPySpace).reverse.dropWhile isPySpace).reverse
      <+: l.dropWhile isPySpace := by
    have h2 := List.reverse_prefix.mpr hsuffix
    simpa using h2
  have hRfix : (stripList l).dropWhile isPySpace = stripList l :=
    prefix_dropWhile_fixed isPySpace _ _ hAfix hprefix
  have houter : stripList (stripList l)
      = (((stripList l).dropWhile isPySpace).reverse.dropWhile isPySpace).reverse := rfl
  rw [houter, hRfix]
  have hrev : (stripList l).reverse = (l.dropWhile isPySpace).reverse.dropWhile isPySpace := by
    show (((l.dropWhile isPySpace).reverse.dropWhile isPySpace).reverse).reverse = _
    rw [List.reverse_reverse]
  rw [hrev, dropWhile_self_idem]
  rfl

theorem pyStrip_idem (s : String) : pyStrip (pyStrip s) = pyStrip s := by
  show (⟨stripList (stripList s.data)⟩ : String) = ⟨stripList s.data⟩
  rw [stripList_idem]

theorem mem_uniqSorted : ∀ (l : List String) (x : String), x ∈ uniqSorted l → x ∈ l := by
  intro l
  induction l with
  | nil => intro x hx; cases hx
  | cons a t ih =>
    cases t with
    | nil => intro x hx; simpa [uniqSorted] using hx
    | cons b t2 =>
      intro x hx
      by_cases hab : a = b
      · rw [show uniqSorted (a :: b :: t2) = uniqSorted (b :: t2) from by
          simp [uniqSorted, hab]] at hx
        exact List.mem_cons_of_mem a (ih x hx)
      · rw [show uniqSorted (a :: b :: t2) = a :: uniqSorted (b :: t2) from by
          simp [uniqSorted, hab]] at hx
        rcases List.mem_cons.mp hx with h | h
        · rw [h]
          exact List.mem_cons_self a _
        · exact List.mem_cons_of_mem a (ih x h)

theorem sorted_lt_uniqSorted : ∀ l : List String, List.Sorted (fun a b => a ≤ b) l →
    List.Sorted (fun a b => a < b) (uniqSorted l) := by
  intro l
  induction l with
  | nil => intro _; simp [uniqSorted]
  | cons a t ih =>
    cases t with
    | nil => intro _; simp [uniqSorted]
    | cons b t2 =>
      intro hs
      have hs2 := (List.sorted_cons.mp hs).2
      have hab : a ≤ b := (List.sorted_cons.mp hs).1 b (List.mem_cons_self b t2)
      by_cases heq : a = b
      · rw [show uniqSorted (a :: b :: t2) = uniqSorted (b :: t2) from by
          simp [uniqSorted, heq]]
        exact ih hs2
      · rw [show uniqSorted (a :: b :: t2) = a :: uniqSorted (b :: t2) from by
          simp [uniqSorted, heq]]
        rw [List.sorted_cons]
        refine ⟨fun z hz => ?_, ih hs2⟩
        have hzmem : z ∈ b :: t2 := mem_uniqSorted _ z hz
        have halt : a < b := lt_of_le_of_ne hab heq
        rcases List.mem_cons.mp hzmem with h | h
        · rw [h]
          exact halt
        · exact lt_of_lt_of_le halt ((List.sorted_cons.mp hs2).1 z h)

theorem fallback_names_chain :
    List.Chain' (fun a b : String => a < b) fallbackNames := by
  simp only [fallbackNames, List.chain'_cons, List.chain'_singleton, and_true]
  refine ⟨?_, ?_, ?_, ?_⟩ <;> (rw [String.lt_iff_toList_lt]; decide)

theorem fallback_names_sorted :
    List.Sorted (fun a b : String => a < b) fallbackNames :=
  List.chain'_iff_pairwise.mp fallback_names_chain

/-- Claim C9: whatever the roster source looks like, the returned name
list is strictly sorted lexicographically (hence duplicate-free), and
every returned name is nonempty and equal to its own strip. -/
theorem c9_employee_names_clean (src : RosterSource) :
    List.Sorted (fun a b : String => a < b) (load_employee_names src) ∧
    (load_employee_names src).Nodup ∧
    ∀ n ∈ load_employee_names src, n ≠ "" ∧ pyStrip n = n := by
  cases src with
  | missing =>
    exact ⟨fallback_names_sorted,
      fallback_names_sorted.imp (fun hab => ne_of_lt hab), by decide⟩
  | noFullNameColumn =>
    exact ⟨fallback_names_sorted,
      fallback_names_sorted.imp (fun hab => ne_of_lt hab), by decide⟩
  | table rows =>
    have hdef : load_employee_names (RosterSource.table rows)
        = (uniqSorted (List.insertionSort (fun a b => a ≤ b)
            (((rows.filter (fun r => truthyActive r.is_active)).filterMap
              (fun r => r.full_name)).map pyStrip))).filter (fun n => n != "") := rfl
    have hsle : List.Sorted (fun a b : String => a ≤ b)
        (List.insertionSort (fun a b => a ≤ b)
          (((rows.filter (fun r => truthyActive r.is_active)).filterMap
            (fun r => r.full_name)).map pyStrip)) :=
      List.sorted_insertionSort _ _
    have huniq := sorted_lt_uniqSorted _ hsle
    have hsorted : List.Sorted (fun a b : String => a < b)
        (load_employee_names (RosterSource.table rows)) := by
      rw [hdef]
      exact List.Pairwise.sublist (List.filter_sublist _) huniq
    refine ⟨hsorted, hsorted.imp (fun hab => ne_of_lt hab), fun n hn => ?_⟩
    rw [hdef] at hn
    have hmf := List.mem_filter.mp hn
    refine ⟨bne_iff_ne.mp hmf.2, ?_⟩
    have hins := mem_uniqSorted _ n hmf.1
    have hstripped := (List.perm_insertionSort _ _).mem_iff.mp hins
    rcases List.mem_map.mp hstripped with ⟨m, _, hm⟩
    rw [← hm]
    exact pyStrip_idem m

/-! ### CSV round trip -/

theorem parseUnquoted_serialized :
    ∀ (f : CsvField) (d : Char) (rest : List Char),
    needsQuote f = false → (d = ',' ∨ d = '\n') →
    parseUnquoted (f ++ d :: rest) = (f, d :: rest) := by
  intro f
  induction f with
  | nil =>
    intro d rest _ hd
    simp [parseUnquoted, hd]
  | cons c f2 ih =>
    intro d rest hq hd
    have hq2 : (isSpecialChar c || needsQuote f2) = false := by
      simpa [needsQuote] using hq
    have hc : isSpecialChar c = false := (Bool.or_eq_false_iff.mp hq2).1
    have hf2 : needsQuote f2 = false := (Bool.or_eq_false_iff.mp hq2).2
    have hcprops : ¬ c = ',' ∧ ¬ c = '"' ∧ ¬ c = '\n' ∧ ¬ c = '\r' := by
      simpa [isSpecialChar, and_assoc] using hc
    have hcnot : ¬ (c = ',' ∨ c = '\n') := by
      rintro (h | h)
      · exact hcprops.1 h
      · exact hcprops.2.2.1 h
    have hrec := ih d rest hf2 hd
    simp [parseUnquoted, hcnot, hrec]

theorem parseQuoted_serialized :
    ∀ (f : CsvField) (d : Char) (rest : List Char), d ≠ '"' →
    parseQuoted (doubleQuotes f ++ '"' :: d :: rest) = (f, d :: rest) := by
  intro f
  induction f with
  | nil =>
    intro d rest hd
    simp [doubleQuotes, parseQuoted, hd]
  | cons c f2 ih =>
    intro d rest hd
    by_cases hc : c = '"'
    · subst hc
      have hrec := ih d rest hd
      simp [doubleQuotes, parseQuoted, hrec]
    · have hrec := ih d rest hd
      have hdq2 : doubleQuotes (c :: f2) = c :: doubleQuotes f2 := by
        simp [doubleQuotes, hc]
      rw [hdq2]
      simp only [List.cons_append]
      rw [parseQuoted.eq_def]
      simp only []
      rw [if_neg hc, hrec]

theorem parseField_serialized (f : CsvField) (d : Char) (rest : List Char)
    (hd : d = ',' ∨ d = '\n') :
    parseField (escapeField f ++ d :: rest) = (f, d :: rest) := by
  have hdq : d ≠ '"' := by rcases hd with h | h <;> (rw [h]; decide)
  by_cases hq : needsQuote f
  · have hesc : escapeField f = '"' :: (doubleQuotes f ++ ['"']) := by simp [escapeField, hq]
    rw [hesc]
    have hassoc : ('"' :: (doubleQuotes f ++ ['"'])) ++ d :: rest
        = '"' :: (doubleQuotes f ++ '"' :: d :: rest) := by simp
    rw [hassoc]
    have hquoted := parseQuoted_serialized f d rest hdq
    simp [parseField, hquoted]
  · have hqf : needsQuote f = false := by
      cases hnq : needsQuote f
      · rfl
      · exact absurd hnq hq
    have hesc : escapeField f = f := by simp [escapeField, hqf]
    rw [hesc]
    cases f with
    | nil => simp [parseField, parseUnquoted, hd, hdq]
    | cons c f2 =>
      have hq2 : (isSpecialChar c || needsQuote f2) = false := by
        simpa [needsQuote] using hqf
      have hcprops : ¬ c = ',' ∧ ¬ c = '"' ∧ ¬ c = '\n' ∧ ¬ c = '\r' := by
        simpa [isSpecialChar, and_assoc] using (Bool.or_eq_false_iff.mp hq2).1
      have hrec := parseUnquoted_serialized (c :: f2) d rest hqf hd
      simp only [List.cons_append] at hrec ⊢
      simp [parseField, hcprops.2.1, hrec]

theorem serializeRow_length : ∀ r : CsvRow, r.length ≤ (serializeRow r).length + 1 := by
  intro r
  induction r with
  | nil => simp [serializeRow]
  | cons f fs ih =>
    cases fs with
    | nil => simp [serializeRow]
    | cons g fs2 =>
      have h : serializeRow (f :: g :: fs2) = escapeField f ++ ',' :: serializeRow (g :: fs2) := rfl
      rw [h]
      simp only [List.length_append, List.length_cons] at ih ⊢
      omega

theorem parseFieldSeq_serialized :
    ∀ (r : CsvRow) (fuel : Nat) (rest : List Char), r ≠ [] → r.length ≤ fuel →
    parseFieldSeq fuel (serializeRow r ++ '\n' :: rest) = (r, rest) := by
  intro r
  induction r with
  | nil => intro fuel rest h _; exact absurd rfl h
  | cons f fs ih =>
    intro fuel rest _ hfuel
    cases fs with
    | nil =>
      obtain ⟨fuel2, rfl⟩ : ∃ k, fuel = k + 1 := ⟨fuel - 1, by simp at hfuel; omega⟩
      have hpf := parseField_serialized f '\n' rest (Or.inr rfl)
      have hone : serializeRow [f] = escapeField f := rfl
      rw [hone]
      simp [parseFieldSeq, hpf]
    | cons g fs2 =>
      obtain ⟨fuel2, rfl⟩ : ∃ k, fuel = k + 1 := ⟨fuel - 1, by simp at hfuel; omega⟩
      have hpf := parseField_serialized f ','
        (serializeRow (g :: fs2) ++ '\n' :: rest) (Or.inl rfl)
      have hassoc : serializeRow (f :: g :: fs2) ++ '\n' :: rest
          = escapeField f ++ ',' :: (serializeRow (g :: fs2) ++ '\n' :: rest) := by
        have h2 : serializeRow (f :: g :: fs2)
            = escapeField f ++ ',' :: serializeRow (g :: fs2) := rfl
        rw [h2]
        simp
      rw [hassoc]
      have hlen : (g :: fs2).length ≤ fuel2 := by
        simp only [List.length_cons] at hfuel ⊢
        omega
      have hrec := ih fuel2 rest (by simp) hlen
      simp [parseFieldSeq, hpf, hrec]

theorem serializeBody_length : ∀ rowsL : List CsvRow, rowsL.length ≤ (serializeBody rowsL).length := by
  intro rowsL
  induction rowsL with
  | nil => simp [serializeBody]
  | cons r rs ih =>
    have h : serializeBody (r :: rs) = serializeRow r ++ '\n' :: serializeBody rs := rfl
    rw [h]
    simp only [List.length_append, List.length_cons] at ih ⊢
    omega

theorem parseRowSeq_serialized :
    ∀ (rowsL : List CsvRow) (fuel : Nat), (∀ r ∈ rowsL, r ≠ []) → rowsL.length ≤ fuel →
    parseRowSeq fuel (serializeBody rowsL) = rowsL := by
  intro rowsL
  induction rowsL with
  | nil =>
    intro fuel _ _
    cases fuel with
    | zero => rfl
    | succ k => simp [parseRowSeq, serializeBody]
  | cons r rs ih =>
    intro fuel hne hfuel
    obtain ⟨fuel2, rfl⟩ : ∃ k, fuel = k + 1 := ⟨fuel - 1, by simp at hfuel; omega⟩
    have hr : r ≠ [] := hne r (List.mem_cons_self r rs)
    have hrs : ∀ q ∈ rs, q ≠ [] := fun q hq => hne q (List.mem_cons_of_mem r hq)
    have hbody : serializeBody (r :: rs) = serializeRow r ++ '\n' :: serializeBody rs := rfl
    rw [hbody]
    have hne2 : serializeRow r ++ '\n' :: serializeBody rs ≠ [] := by simp
    have hlen2 : r.length ≤ (serializeRow r ++ '\n' :: serializeBody rs).length + 1 := by
      have h1 := serializeRow_length r
      simp only [List.length_append, List.length_cons]
      omega
    have hfields := parseFieldSeq_serialized r
      ((serializeRow r ++ '\n' :: serializeBody rs).length + 1) (serializeBody rs) hr hlen2
    have hrsfuel : rs.length ≤ fuel2 := by
      simp only [List.length_cons] at hfuel
      omega
    have hrec := ih fuel2 hrs hrsfuel
    simp only [List.length_append, List.length_cons] at hfields
    simp [parseRowSeq, hne2, hfields, hrec]

theorem csv_roundtrip (rowsL : List CsvRow) (h : ∀ r ∈ rowsL, r ≠ []) :
    readAllFile (serializeCsvFile rowsL) = rowsL := by
  have hall : ∀ r ∈ headerRow :: rowsL, r ≠ [] := by
    intro r hr
    rcases List.mem_cons.mp hr with h1 | h1
    · rw [h1]
      simp [headerRow]
    · exact h r h1
  have hser : serializeCsvFile rowsL = serializeBody (headerRow :: rowsL) := rfl
  have hfuel : (headerRow :: rowsL).length ≤ (serializeBody (headerRow :: rowsL)).length + 1 := by
    have := serializeBody_length (headerRow :: rowsL)
    omega
  have hparse : parseCsvRows (serializeCsvFile rowsL) = headerRow :: rowsL := by
    rw [hser]
    exact parseRowSeq_serialized (headerRow :: rowsL) _ hall hfuel
  simp [readAllFile, hparse]

/-! ### Export round trip (C8) and write-failure truncation (C6) -/

/-- Claim C8: for any log of schema rows, downloading the export
(`df_all.to_csv(index=False)` of `pd.read_csv(LOG_PATH)`) and parsing it
back through the same CSV schema reproduces exactly the sequence that
`read` returns on the stored file — every field, including empty
optional ones, survives serialization and re-parsing. -/
theorem c8_export_roundtrip (rowsL : List CsvRow) (h : ∀ r ∈ rowsL, r.length = 10) :
    readAllFile (exportFile (serializeCsvFile rowsL)) = readAllFile (serializeCsvFile rowsL) := by
  have hne : ∀ r ∈ rowsL, r ≠ [] := by
    intro r hr heq
    have h10 := h r hr
    rw [heq] at h10
    simp at h10
  have hexp : exportFile (serializeCsvFile rowsL)
      = serializeCsvFile (readAllFile (serializeCsvFile rowsL)) := rfl
  rw [hexp, csv_roundtrip rowsL hne]
  exact csv_roundtrip rowsL hne

/-- Two schema rows exercising the interesting cases: a notes field
containing a comma and embedded quotes, and an empty notes field. -/
def rowsSample : List CsvRow :=
  [["2025-01-10T09:30:00".data, "2025-01-10".data, "B-1".data, "Alice Martinez".data,
    "Ben Kim".data, "Carla Rossi".data, "2025-01-20".data, "Yes".data, "Yes".data,
    "batch ok, tester said \"fine\"".data],
   ["2025-01-11T10:00:00".data, "2025-01-11".data, "B-2".data, "Ben Kim".data,
    "Eva Chen".data, "Diego Alvarez".data, "2025-01-21".data, "Yes".data, "No".data,
    "".data]]

/-- Witness for C8 on rows with quoted, comma-laden and empty fields. -/
theorem c8_export_roundtrip_witness :
    readAllFile (exportFile (serializeCsvFile rowsSample))
      = readAllFile (serializeCsvFile rowsSample) :=
  c8_export_roundtrip rowsSample (by decide)

/-- A previously persisted schema row. -/
def rowPrior : CsvRow :=
  ["2025-01-01T08:00:00".data, "2025-01-01".data, "B-0".data, "Alice Martinez".data,
   "Ben Kim".data, "Carla Rossi".data, "2025-01-05".data, "Yes".data, "Yes".data, "".data]

/-- The row whose append fails. -/
def rowNew : CsvRow :=
  ["2025-01-02T08:00:00".data, "2025-01-02".data, "B-9".data, "Ben Kim".data,
   "Eva Chen".data, "Diego Alvarez".data, "2025-01-06".data, "Yes".data, "No".data, "".data]

/-- Claim C6 (code bug): the append path rewrites the whole CSV in place
(`df.to_csv(LOG_PATH, index=False)` opens the file in write mode), so a
write failing partway leaves only a prefix of the new content.  Before
the failed append, the persisted row is readable; after a failure at
offset 0 the store reads back empty — the previously persisted record is
lost, contradicting the claim that the store is never truncated relative
to its pre-write state. -/
theorem c6_truncating_write_loses_prior_record :
    readAllFile (serializeCsvFile [rowPrior]) = [rowPrior] ∧
    csvWriteTruncated [rowPrior, rowNew] 0 = [] ∧
    rowPrior ∉ readAllFile (csvWriteTruncated [rowPrior, rowNew] 0) := by
  refine ⟨csv_roundtrip [rowPrior] (by decide), rfl, ?_⟩
  have hempty : readAllFile (csvWriteTruncated [rowPrior, rowNew] 0) = [] := rfl
  rw [hempty]
  simp

/-! ### Concurrent appends (C7) -/

/-- The record already in the store before the two concurrent appends. -/
def rec0 : Record :=
  mkRecord ⟨1, 3, "B-0", "Alice Martinez", "Ben Kim", "Carla Rossi", true, true, ""⟩ 5

/-- The record of the first concurrent append. -/
def recA : Record :=
  mkRecord ⟨1, 3, "B-A", "Alice Martinez", "Ben Kim", "Carla Rossi", true, true, ""⟩ 10

/-- The record of the second concurrent append. -/
def recB : Record :=
  mkRecord ⟨1, 3, "B-B", "Ben Kim", "Eva Chen", "Diego Alvarez", true, true, ""⟩ 11

/-- Claim C7 (code bug): the source's read-concat-write append holds no
lock, so the two reads of a pair of concurrent appends can both happen
before either write.  Under the schedule readA, readB, writeA, writeB —
with records carrying distinct batch ids — the final store holds only
the prior record and the second append's record: the first append's
record is lost, contradicting the no-lost-update claim and showing the
mutating accesses are not serialized. -/
theorem c7_concurrent_appends_lose_update :
    recA.batch_id ≠ recB.batch_id ∧
    (runSched recA recB [rec0] [COp.readA, COp.readB, COp.writeA, COp.writeB]).file
      = [rec0, recB] ∧
    recA ∉ (runSched recA recB [rec0] [COp.readA, COp.readB, COp.writeA, COp.writeB]).file := by
  refine ⟨by decide, by decide, by decide⟩
